import Mathlib

/-!
Verification development for the `bprint` byte-stream pretty printer.

The program decodes a raw byte stream into fixed-width integer fields
according to a compact binary layout specifier (`parseBinaryFmtSpec`),
expands repeat shorthand in a printf-style template (`processPrintFmt`,
`countPrintFmtSpec`, `generatePrintFmt`, `repeatWithSep`), and renders
each decoded record through the template (`readData` and the read loop
in `main`).

The embedding below is a direct translation of the Go source:
strings are modelled as `List Char`, byte streams as lists of natural
numbers below 256 together with a terminal condition, Go panics as the
`Except` error monad (`main` recovers panics and exits with status 1),
and the two regular expressions of the template engine as deterministic
matchers (both patterns are deterministic: every starred character class
is disjoint from the class that must follow it, so the greedy extent is
the only possible one, and `FindAll` scans for leftmost, non-overlapping
matches which is exactly the char-by-char scan implemented here).
-/

namespace Bprint

/-- Decidable equality for `Except`, so that concrete runs of the
embedded functions can be checked by `decide`. -/
instance {ε α : Type} [DecidableEq ε] [DecidableEq α] : DecidableEq (Except ε α) := fun x y =>
  match x, y with
  | .ok a, .ok b =>
    match decEq a b with
    | isTrue h => isTrue (h ▸ rfl)
    | isFalse h => isFalse fun hh => h (Except.ok.inj hh)
  | .error a, .error b =>
    match decEq a b with
    | isTrue h => isTrue (h ▸ rfl)
    | isFalse h => isFalse fun hh => h (Except.error.inj hh)
  | .ok _, .error _ => isFalse fun hh => Except.noConfusion hh
  | .error _, .ok _ => isFalse fun hh => Except.noConfusion hh

/-- Field type identifiers; the Go source encodes these as the byte
constants `I8 .. U64` of type `intType`. -/
inductive intType where
  | I8 | I16 | I32 | I64
  | U8 | U16 | U32 | U64
deriving DecidableEq

/-- Descriptor of one field type: identifier and byte size, as in the Go
struct `intDesc`. The Go sentinel `noType` is modelled by wrapping the
previous descriptor in `Option` instead. -/
structure intDesc where
  typeId : intType
  size : Nat
deriving DecidableEq

/-- Translation of the Go map `descCharMap`: which specifier characters
are recognized and which descriptor each one denotes. -/
def descCharMap (c : Char) : Option intDesc :=
  if c = 'c' then some ⟨.I8, 1⟩
  else if c = 's' then some ⟨.I16, 2⟩
  else if c = 'l' then some ⟨.I32, 4⟩
  else if c = 'q' then some ⟨.I64, 8⟩
  else if c = 'C' then some ⟨.U8, 1⟩
  else if c = 'S' then some ⟨.U16, 2⟩
  else if c = 'L' then some ⟨.U32, 4⟩
  else if c = 'Q' then some ⟨.U64, 8⟩
  else none

/-- Translation of the Go helper `isDigit`. -/
def isDigit (b : Char) : Bool := '0' ≤ b && b ≤ '9'

/-- Panics of the Go program, as recovered by the deferred handler in
`main` (which prints the payload and exits with status 1). -/
inductive GoPanic where
  /-- Panic with an explicit string argument. -/
  | message (s : String)
  /-- Runtime panic raised by an out-of-range slice expression. -/
  | sliceBounds
  /-- Panic for a field-count mismatch between the binary layout (`bin`
  fields) and the expanded print format (`pr` fields). -/
  | fieldCountMismatch (bin pr : Nat)
deriving DecidableEq

/-- Mutable state of the scan loop inside `parseBinaryFmtSpec`:
the fields appended so far, the running record size, the pending repeat
number, and the previously seen descriptor (`none` models `noType`). -/
structure ParseState where
  acc : List intType
  recSize : Nat
  repeatNum : Nat
  prev : Option intDesc
deriving DecidableEq

/-- State at the top of `parseBinaryFmtSpec`. -/
def initState : ParseState := ⟨[], 0, 0, none⟩

/-- Type identifier of the previous descriptor.  The default value is
irrelevant: it is consulted only when `repeatNum ≠ 0`, and the digit
branch of the scan sets `repeatNum ≠ 0` only after checking that a
previous descriptor exists. -/
def prevTypeId (st : ParseState) : intType := (st.prev.getD ⟨.U8, 0⟩).typeId

/-- Byte size of the previous descriptor (same guard as `prevTypeId`). -/
def prevSize (st : ParseState) : Nat := (st.prev.getD ⟨.U8, 0⟩).size

/-- Retroactive expansion of a pending repeat count, performed by
`parseBinaryFmtSpec` when the next letter arrives: the letter itself was
already appended, so `repeatNum - 1` more copies are appended and the
record size grows by `(repeatNum - 1) * size`. -/
def flushRepeat (st : ParseState) : ParseState :=
  if st.repeatNum = 0 then st
  else ⟨st.acc ++ List.replicate (st.repeatNum - 1) (prevTypeId st),
        st.recSize + (st.repeatNum - 1) * prevSize st, 0, st.prev⟩

/-- One iteration of the scan loop of `parseBinaryFmtSpec`, handling a
single character of the specifier. -/
def parseStep (st : ParseState) (c : Char) : Except GoPanic ParseState :=
  match descCharMap c with
  | some desc =>
      let st1 := flushRepeat st
      .ok ⟨st1.acc ++ [desc.typeId], st1.recSize + desc.size, 0, some desc⟩
  | none =>
      if isDigit c then
        match st.prev with
        | none => .error (.message
            "Data specifier error: repeat number without previous data specifier")
        | some _ => .ok ⟨st.acc, st.recSize,
            st.repeatNum * 10 + (c.toNat - '0'.toNat), st.prev⟩
      else .error (.message ("Data specifier '" ++ String.mk [c] ++ "' not supported"))

/-- The scan loop of `parseBinaryFmtSpec` over the whole specifier. -/
def parseLoop (st : ParseState) : List Char → Except GoPanic ParseState
  | [] => .ok st
  | c :: rest =>
    match parseStep st c with
    | .ok st' => parseLoop st' rest
    | .error e => .error e

/-- Epilogue of `parseBinaryFmtSpec`: if the specifier ends in digits the
pending repeat count is applied once at end-of-scan. -/
def finalize (st : ParseState) : List intType × Nat :=
  (st.acc ++ List.replicate (st.repeatNum - 1) (prevTypeId st),
   st.recSize + (if st.repeatNum = 0 then 0 else (st.repeatNum - 1) * prevSize st))

/-- Translation of `parseBinaryFmtSpec`: compiles a layout specifier to
the ordered field list `formatDesc` and the record byte size `recSize`. -/
def parseBinaryFmtSpec (binFmt : List Char) : Except GoPanic (List intType × Nat) :=
  match parseLoop initState binFmt with
  | .ok st => .ok (finalize st)
  | .error e => .error e

/-- Decimal value of a digit run, accumulated positionally exactly as
the scan loops of the Go source do (and as `strconv.Atoi` does). -/
def digitsVal (ds : List Char) : Nat :=
  ds.foldl (fun a c => a * 10 + (c.toNat - '0'.toNat)) 0

/-- A well-formed piece of a layout specifier: one recognized letter
optionally followed by a digit run (empty `run` = bare letter). -/
structure LayoutToken where
  letter : Char
  run : List Char
deriving DecidableEq

/-- Characters contributed by one token. -/
def tokenChars (t : LayoutToken) : List Char := t.letter :: t.run

/-- The specifier string denoted by a token list. -/
def flattenTokens (ts : List LayoutToken) : List Char := (ts.map tokenChars).flatten

/-- Well-formedness of a token: the letter is recognized and the run
consists of digits. -/
def tokenOK (t : LayoutToken) : Prop :=
  (descCharMap t.letter).isSome ∧ ∀ c ∈ t.run, isDigit c = true

instance (t : LayoutToken) : Decidable (tokenOK t) :=
  decidable_of_iff ((descCharMap t.letter).isSome = true ∧ ∀ c ∈ t.run, isDigit c = true)
    Iff.rfl

/-- Descriptor denoted by a token's letter (for well-formed tokens). -/
def tokenDesc (t : LayoutToken) : intDesc := (descCharMap t.letter).getD ⟨.U8, 0⟩

/-- Number of fields the compiler produces for one token: the value of
the digit run, except that a bare letter and a run with value zero both
yield one field. -/
def tokenCount (t : LayoutToken) : Nat := max (digitsVal t.run) 1

/-- Field sequence the compiler produces for a token list. -/
def tokenFields (ts : List LayoutToken) : List intType :=
  (ts.map (fun t => List.replicate (tokenCount t) (tokenDesc t).typeId)).flatten

/-- Record size the compiler produces for a token list. -/
def tokenSize (ts : List LayoutToken) : Nat :=
  (ts.map (fun t => tokenCount t * (tokenDesc t).size)).sum

/-- Modelled from the spec (the comparison count for claim C2): the
"sum of the declared repeat counts, counting 1 for each bare letter
with no digit suffix". -/
def claimDeclaredCount (ts : List LayoutToken) : Nat :=
  (ts.map (fun t => if t.run = [] then 1 else digitsVal t.run)).sum

/-- Byte width of a field type, matching the size of the scratch
variable that `readData` passes to `binary.Read` for it. -/
def typeWidth : intType → Nat
  | .I8 => 1 | .I16 => 2 | .I32 => 4 | .I64 => 8
  | .U8 => 1 | .U16 => 2 | .U32 => 4 | .U64 => 8

/-- Signedness of a field type. -/
def typeSigned : intType → Bool
  | .I8 | .I16 | .I32 | .I64 => true
  | .U8 | .U16 | .U32 | .U64 => false

/-! ### Template engine

The Go source drives the template engine with two regular expressions:

* `processPrintFmt` expands repeat shorthand using
  `(%[^cdxo%]*[cdxo])([^\d]*)(\d+)#`;
* `countPrintFmtSpec` counts live conversion directives using
  `([^%]{1}%[^cdxo%]*[cdxo]|^%[^cdxo%]*[cdxo])`.

Both patterns are deterministic: inside `%[^cdxo%]*[cdxo]` the starred
class excludes the final class and `%`, so the greedy run is the only
possible one, and in the shorthand pattern `[^\d]*` and `\d+` exclude
each other likewise.  `FindAll` returns leftmost, non-overlapping
matches, each new search resuming at the end of the previous match;
the scanners below advance one character at a time and jump over each
match they find, which is exactly that semantics. -/

/-- Conversion letters accepted by both patterns (`[cdxo]`). -/
def isFinalConv (c : Char) : Bool := c = 'c' || c = 'd' || c = 'x' || c = 'o'

/-- Matcher for the part of a conversion directive after the leading
`%`, i.e. `[^cdxo%]*[cdxo]`; returns the consumed characters and the
remaining suffix. -/
def afterPct : List Char → Option (List Char × List Char)
  | [] => none
  | c :: rest =>
    if isFinalConv c then some ([c], rest)
    else if c = '%' then none
    else
      match afterPct rest with
      | some (sp, r) => some (c :: sp, r)
      | none => none

/-- Matcher for a full conversion directive `%[^cdxo%]*[cdxo]` at the
head of the input; returns the directive text and the remaining suffix. -/
def dMatchSpan : List Char → Option (List Char × List Char)
  | [] => none
  | c :: rest =>
    if c = '%' then
      match afterPct rest with
      | some (sp, r) => some (c :: sp, r)
      | none => none
    else none

/-- Matcher for one repeat-shorthand occurrence
`(%[^cdxo%]*[cdxo])([^\d]*)(\d+)#` at the head of the input; returns
the three capture groups (directive, separator, digit run) and the
suffix after the terminating `#`. -/
def tryMatch (cs : List Char) : Option (List Char × List Char × List Char × List Char) :=
  match dMatchSpan cs with
  | none => none
  | some (spec, r1) =>
    let sep := r1.takeWhile (fun c => !(isDigit c))
    let r2 := r1.drop sep.length
    let ds := r2.takeWhile isDigit
    if ds = [] then none
    else
      match r2.drop ds.length with
      | '#' :: rest => some (spec, sep, ds, rest)
      | _ => none

/-- Translation of the Go helper `repeatWithSep`: repeats `rep ++ sep`
`cnt` times and slices off the trailing separator.  When `cnt = 0` and
`sep ≠ ""` the Go slice expression `printFmt[:len(printFmt)-len(sep)]`
has a negative upper bound and panics at runtime. -/
def repeatWithSep (rep sep : List Char) (cnt : Nat) : Except GoPanic (List Char) :=
  let p := (List.replicate cnt (rep ++ sep)).flatten
  if sep.length ≤ p.length then .ok (p.take (p.length - sep.length))
  else .error .sliceBounds

/-- Translation of `generatePrintFmt`: default template of `cnt`
`"%02x"` directives joined by `sep`. -/
def generatePrintFmt (cnt : Nat) (sep : List Char) : Except GoPanic (List Char) :=
  repeatWithSep "%02x".toList sep cnt

/-- Scan loop of `processPrintFmt`.  `prevc` is the character
immediately before the current position in the original string (used
for the escaped `%%` check on `printFmt[v[0]-1]`), and `fuel` bounds
the recursion (every step consumes at least one character, so
`length + 1` fuel always suffices).  On a match the three groups are
either copied verbatim (escaped case) or replaced by
`repeatWithSep spec sep cnt`; between and around matches characters
pass through unchanged, so when no match exists at all the input is
returned unchanged, exactly as the `mat == nil` early return does. -/
def processAux : Nat → Option Char → List Char → Except GoPanic (List Char)
  | 0, _, cs => .ok cs
  | fuel + 1, prevc, cs =>
    match cs, tryMatch cs with
    | [], _ => .ok []
    | c :: rest, none => do
        let out ← processAux fuel (some c) rest
        .ok (c :: out)
    | _ :: _, some (spec, sep, ds, after) =>
        if prevc = some '%' then do
          let out ← processAux fuel (some '#') after
          .ok (spec ++ sep ++ ds ++ '#' :: out)
        else do
          let sep' := if sep = [] then [' '] else sep
          let piece ← repeatWithSep spec sep' (digitsVal ds)
          let out ← processAux fuel (some '#') after
          .ok (piece ++ out)

/-- Translation of `processPrintFmt`: repeat-shorthand expansion. -/
def processPrintFmt (s : List Char) : Except GoPanic (List Char) :=
  processAux (s.length + 1) none s

/-- Scan loop of `countPrintFmtSpec` for matches of the alternative
`[^%]{1}%[^cdxo%]*[cdxo]`: the head of the list is the candidate
preceding character, and a counted match consumes both it and the
directive, resuming after the directive. -/
def countTail : Nat → List Char → Nat
  | 0, _ => 0
  | _ + 1, [] => 0
  | fuel + 1, c :: rest =>
    if c = '%' then countTail fuel rest
    else
      match dMatchSpan rest with
      | some (_, r') => 1 + countTail fuel r'
      | none => countTail fuel rest

/-- Translation of `countPrintFmtSpec`: number of leftmost,
non-overlapping matches of `([^%]{1}spec|^spec)` where `spec` is the
conversion-directive pattern; `^` can only match at the very start. -/
def countPrintFmtSpec (s : List Char) : Nat :=
  match dMatchSpan s with
  | some (_, r) => 1 + countTail s.length r
  | none => countTail s.length s

/-- Modelled from the spec (the comparison count for claim C3): the
number of conversion directives in the string that are not immediately
preceded by a literal `%` character, counting every position where the
directive pattern matches. -/
def specLiveCount : Option Char → List Char → Nat
  | _, [] => 0
  | prevc, c :: rest =>
    (if (dMatchSpan (c :: rest)).isSome && prevc ≠ some '%' then 1 else 0)
      + specLiveCount (some c) rest

/-- Presence of a repeat-shorthand match anywhere in the string
(`FindAllStringSubmatchIndex` returns `nil` exactly when this is
`false`). -/
def hasRepeatMatch : List Char → Bool
  | [] => false
  | c :: rest => (tryMatch (c :: rest)).isSome || hasRepeatMatch rest

/-! ### Configuration phase of `main`

After flag parsing, `main` compiles the layout, synthesizes the default
template when none was given, expands the template, and checks that the
directive count matches the field count — all before any byte of input
is read.  Any panic is recovered by the deferred handler, which prints
the payload and exits with status 1. -/

/-- Configuration phase of `main` (source lines 301-314): returns the
compiled field list, the record size, and the final print format (with
the newline appended), or the panic that aborts the program. -/
def configure (binFmt printFmtFlag : List Char) : Except GoPanic (List intType × Nat × List Char) := do
  let (fd, rs) ← parseBinaryFmtSpec binFmt
  let pf0 ← if printFmtFlag = [] then generatePrintFmt fd.length [' '] else .ok printFmtFlag
  let pf ← processPrintFmt pf0
  let cnt := countPrintFmtSpec pf
  if cnt = fd.length then .ok (fd, rs, pf ++ ['\n'])
  else .error (.fieldCountMismatch fd.length cnt)

/-! ### Byte stream, record reader and `main` loop

The input is a buffered reader over a file or standard input.  It is
modelled as the list of bytes still available followed by a terminal
condition: a clean end of stream, or a read failure carrying an error
message.  `binary.Read` fills its argument via `io.ReadFull`, whose
contract is: all requested bytes available → success; no byte available
→ the terminal condition (`io.EOF` on a clean end); some but not all
bytes available on a clean end → `io.ErrUnexpectedEOF`; any non-EOF
failure is returned as is. -/

/-- Terminal condition of the input stream after its remaining bytes. -/
inductive Term where
  /-- Clean end of stream (`io.EOF`). -/
  | eof
  /-- Read failure other than end of stream, with its message. -/
  | ioFail (msg : String)
deriving DecidableEq

/-- Input stream: remaining bytes (each `< 256`) and terminal condition. -/
structure ByteStream where
  bytes : List Nat
  term : Term
deriving DecidableEq

/-- Result of one `binary.Read` call, as seen by `readData` and `main`. -/
inductive RdErr where
  /-- `io.EOF`: the stream was exhausted before the first byte of the field. -/
  | eofErr
  /-- `io.ErrUnexpectedEOF`: the stream ended inside the field. -/
  | unexpectedEofErr
  /-- Any other read failure, surfaced verbatim. -/
  | readFail (msg : String)
deriving DecidableEq

/-- Little-endian value of a byte list (`binary.LittleEndian`). -/
def leVal : List Nat → Nat
  | [] => 0
  | b :: rest => b + 256 * leVal rest

/-- Decoded integer value of one field from its `typeWidth t` bytes:
unsigned types read the little-endian value, signed types reinterpret
it in two's complement. -/
def decodeField (t : intType) (bs : List Nat) : Int :=
  let m := leVal bs
  if typeSigned t && decide (2 ^ (8 * typeWidth t - 1) ≤ m) then
    (m : Int) - 2 ^ (8 * typeWidth t)
  else (m : Int)

/-- One `binary.Read` call for a field of type `t`: consume
`typeWidth t` bytes or fail per the `io.ReadFull` contract. -/
def readField (t : intType) (s : ByteStream) : Except RdErr Int × ByteStream :=
  let w := typeWidth t
  if w ≤ s.bytes.length then
    (.ok (decodeField t (s.bytes.take w)), ⟨s.bytes.drop w, s.term⟩)
  else
    match s.term with
    | .eof =>
      if s.bytes = [] then (.error .eofErr, ⟨[], s.term⟩)
      else (.error .unexpectedEofErr, ⟨[], s.term⟩)
    | .ioFail m => (.error (.readFail m), ⟨[], s.term⟩)

/-- Translation of `readData`: decode the fields of one record in
order, stopping at the first failure; returns the number `n` of fields
decoded, their values (the prefix `data[0:n]` handed to the printer),
the error if any, and the remaining stream. -/
def readData (fds : List intType) (s : ByteStream) : Nat × List Int × Option RdErr × ByteStream :=
  match fds with
  | [] => (0, [], none, s)
  | t :: rest =>
    match readField t s with
    | (.ok v, s') =>
      let (n, vs, e, s'') := readData rest s'
      (n + 1, v :: vs, e, s'')
    | (.error e, s') => (0, [], some e, s')

/-! Rendering.  `printData` calls `fmt.Printf` with the expanded format
and the decoded values.  The model below covers the behaviour of Go's
`fmt` for the directives this program can feed it — verbs `c`, `d`,
`x`, `o` with optional zero-padding/width flags, escaped `%%`, and
literal text — including the `%!v(MISSING)` marker Go emits for a
directive with no remaining argument.  Surplus arguments (which this
program produces only in the unreachable zero-field loop) are not
rendered. -/

/-- Rendering of one conversion directive with flag/width text `flags`,
verb letter `verb` and argument `v`, as Go's `fmt` renders it: the verb
selects the base, a leading `0` flag zero-pads to the given width
(after the sign), otherwise the text is blank-padded. -/
def fmtVerb (flags : List Char) (verb : Char) (v : Int) : List Char :=
  if verb = 'c' then [Char.ofNat v.toNat]
  else
    let base : Nat := if verb = 'x' then 16 else if verb = 'o' then 8 else 10
    let digits := Nat.toDigits base v.natAbs
    let sign : List Char := if v < 0 then ['-'] else []
    let width := digitsVal flags
    if flags.head? = some '0' then
      sign ++ List.replicate (width - (sign.length + digits.length)) '0' ++ digits
    else
      List.replicate (width - (sign.length + digits.length)) ' ' ++ sign ++ digits

/-- Scan loop of the `fmt.Printf` model; `fuel` bounds the recursion
(every step consumes at least one format character). -/
def goSprintfAux : Nat → List Char → List Int → List Char
  | 0, _, _ => []
  | _ + 1, [], _ => []
  | fuel + 1, '%' :: '%' :: rest, args => '%' :: goSprintfAux fuel rest args
  | fuel + 1, '%' :: rest, args =>
    (let flags := rest.takeWhile (fun c => !(isFinalConv c))
     match rest.drop flags.length, args with
     | verb :: r, a :: as => fmtVerb flags verb a ++ goSprintfAux fuel r as
     | verb :: r, [] => '%' :: '!' :: verb :: ("(MISSING)".toList ++ goSprintfAux fuel r [])
     | [], _ => '%' :: rest)
  | fuel + 1, c :: rest, args => c :: goSprintfAux fuel rest args

/-- Model of `fmt.Printf` applied to the expanded format and the
decoded values of one (possibly partial) record. -/
def goSprintf (pf : List Char) (args : List Int) : List Char :=
  goSprintfAux pf.length pf args

/-- The record loop of `main` (source lines 316-322): call `readData`
until it fails, printing one line per complete record.  Returns the
printed lines, and the `n`, values and error of the failing attempt.
`fuel` bounds the recursion; any fuel exceeding the number of remaining
bytes is enough when the layout has at least one field. -/
def runLoop : Nat → List intType → List Char → ByteStream →
    List (List Char) × Nat × List Int × Option RdErr
  | 0, _, _, _ => ([], 0, [], none)
  | fuel + 1, fds, pf, s =>
    match readData fds s with
    | (_, vs, none, s') =>
      let (lines, n, vals, e) := runLoop fuel fds pf s'
      (goSprintf pf vs :: lines, n, vals, e)
    | (n, vs, some e, _) => ([], n, vs, some e)

/-- The diagnostic `main` prints after the loop (source lines 329-335):
nothing on a clean `io.EOF`, a distinguished message when the stream
ended inside a field, and the underlying failure with the
`"While reading data: "` context prefix otherwise. -/
def errLine : Option RdErr → Option (List Char)
  | some .eofErr => none
  | some .unexpectedEofErr => some ("EOF: final data not enough for the last field\n".toList)
  | some (.readFail m) => some (("While reading data: " ++ m ++ "\n").toList)
  | none => none

/-- The reading phase of `main` (source lines 316-335) with the offset
and record-count flags at their defaults (off): the printed record
lines — including the trailing piece printed when the failing attempt
had decoded at least one field — and the final diagnostic, if any. -/
def runBprint (fuel : Nat) (fds : List intType) (pf : List Char) (s : ByteStream) :
    List (List Char) × Option (List Char) :=
  let (lines, n, vals, e) := runLoop fuel fds pf s
  (lines ++ (if n = 0 then [] else [goSprintf pf vals]), errLine e)

/-! ### Lemmas about the layout compiler -/

lemma descCharMap_of_isDigit {c : Char} (h : isDigit c = true) : descCharMap c = none := by
  unfold descCharMap
  split_ifs with h1 h2 h3 h4 h5 h6 h7 h8
  all_goals first
    | rfl
    | (subst_vars; exact absurd h (by decide))

lemma width_eq_size {c : Char} {d : intDesc} (h : descCharMap c = some d) :
    typeWidth d.typeId = d.size := by
  unfold descCharMap at h
  split_ifs at h <;> (injection h with h2; subst h2; rfl)

lemma parseLoop_append (xs ys : List Char) : ∀ st : ParseState,
    parseLoop st (xs ++ ys) =
      match parseLoop st xs with
      | .ok st' => parseLoop st' ys
      | .error e => .error e := by
  induction xs with
  | nil => intro st; rfl
  | cons c rest ih =>
    intro st
    simp only [List.cons_append, parseLoop]
    cases parseStep st c with
    | ok st' => exact ih st'
    | error e => rfl

lemma parseStep_letter {c : Char} {d : intDesc} (st : ParseState) (h : descCharMap c = some d) :
    parseStep st c = .ok ⟨(flushRepeat st).acc ++ [d.typeId],
      (flushRepeat st).recSize + d.size, 0, some d⟩ := by
  simp [parseStep, h]

lemma parseStep_digit {c : Char} (st : ParseState) (d : intDesc)
    (hd : isDigit c = true) (hp : st.prev = some d) :
    parseStep st c =
      .ok ⟨st.acc, st.recSize, st.repeatNum * 10 + (c.toNat - '0'.toNat), st.prev⟩ := by
  simp [parseStep, descCharMap_of_isDigit hd, hd, hp]

lemma parseLoop_digits (ds : List Char) :
    ∀ (st : ParseState) (d : intDesc) (rest : List Char),
      (∀ c ∈ ds, isDigit c = true) → st.prev = some d →
      parseLoop st (ds ++ rest) =
        parseLoop ⟨st.acc, st.recSize,
          ds.foldl (fun a c => a * 10 + (c.toNat - '0'.toNat)) st.repeatNum, st.prev⟩ rest := by
  induction ds with
  | nil =>
    intro st d rest _ _
    rfl
  | cons c ds ih =>
    intro st d rest hall hp
    have h1 : isDigit c = true := hall c (List.mem_cons_self c ds)
    simp only [List.cons_append, parseLoop, parseStep_digit st d h1 hp]
    exact ih _ d rest (fun x hx => hall x (List.mem_cons_of_mem c hx)) hp

lemma finalize_eq (st : ParseState) :
    finalize st = ((flushRepeat st).acc, (flushRepeat st).recSize) := by
  unfold finalize flushRepeat
  by_cases h : st.repeatNum = 0 <;> simp [h]

lemma flushRepeat_state (acc : List intType) (rs v : Nat) (d : intDesc) :
    flushRepeat ⟨acc ++ [d.typeId], rs + d.size, v, some d⟩ =
      ⟨acc ++ List.replicate (max v 1) d.typeId, rs + max v 1 * d.size, 0, some d⟩ := by
  by_cases hv : v = 0
  · subst hv
    simp [flushRepeat]
  · have hmax : max v 1 = v := by omega
    have hv1 : v - 1 + 1 = v := by omega
    have hrep : [d.typeId] ++ List.replicate (v - 1) d.typeId = List.replicate v d.typeId := by
      rw [List.singleton_append, ← List.replicate_succ, hv1]
    have hmul : d.size + (v - 1) * d.size = v * d.size := by
      calc d.size + (v - 1) * d.size = (v - 1) * d.size + d.size := Nat.add_comm _ _
        _ = (v - 1 + 1) * d.size := (Nat.succ_mul _ _).symm
        _ = v * d.size := by rw [hv1]
    simp only [flushRepeat, if_neg hv, prevTypeId, prevSize, Option.getD_some, hmax]
    rw [List.append_assoc, hrep, Nat.add_assoc, hmul]

lemma tokenFields_cons (t : LayoutToken) (ts : List LayoutToken) :
    tokenFields (t :: ts)
      = List.replicate (tokenCount t) (tokenDesc t).typeId ++ tokenFields ts := by
  simp [tokenFields]

lemma parseLoop_tokens (ts : List LayoutToken) (h : ∀ t ∈ ts, tokenOK t) :
    ∀ st : ParseState, ∃ st', parseLoop st (flattenTokens ts) = .ok st' ∧
      (flushRepeat st').acc = (flushRepeat st).acc ++ tokenFields ts ∧
      (flushRepeat st').recSize = (flushRepeat st).recSize + tokenSize ts := by
  induction ts with
  | nil =>
    intro st
    exact ⟨st, rfl, by simp [flattenTokens, tokenFields], by simp [tokenSize]⟩
  | cons t ts ih =>
    intro st
    obtain ⟨hlet, hrun⟩ := h t (List.mem_cons_self t ts)
    obtain ⟨d, hd⟩ := Option.isSome_iff_exists.mp hlet
    have hdesc : tokenDesc t = d := by simp [tokenDesc, hd]
    have hfl : flattenTokens (t :: ts) = t.letter :: (t.run ++ flattenTokens ts) := by
      simp [flattenTokens, tokenChars]
    rw [hfl]
    simp only [parseLoop, parseStep_letter st hd]
    rw [parseLoop_digits t.run _ d (flattenTokens ts) hrun rfl]
    obtain ⟨st', h1, h2, h3⟩ := ih (fun x hx => h x (List.mem_cons_of_mem t hx))
      ⟨(flushRepeat st).acc ++ [d.typeId], (flushRepeat st).recSize + d.size,
       digitsVal t.run, some d⟩
    refine ⟨st', h1, ?_, ?_⟩
    · rw [h2, flushRepeat_state (flushRepeat st).acc (flushRepeat st).recSize
        (digitsVal t.run) d]
      have hfields : tokenFields (t :: ts)
          = List.replicate (tokenCount t) (tokenDesc t).typeId ++ tokenFields ts := by
        simp [tokenFields]
      rw [hfields, ← List.append_assoc]
      simp [tokenCount, hdesc]
    · rw [h3, flushRepeat_state (flushRepeat st).acc (flushRepeat st).recSize
        (digitsVal t.run) d]
      have hsize : tokenSize (t :: ts) = tokenCount t * (tokenDesc t).size + tokenSize ts := by
        simp [tokenSize]
      rw [hsize, ← Nat.add_assoc]
      simp [tokenCount, hdesc]

lemma tokenSize_eq_width_sum (ts : List LayoutToken) (h : ∀ t ∈ ts, tokenOK t) :
    tokenSize ts = ((tokenFields ts).map typeWidth).sum := by
  induction ts with
  | nil => simp [tokenSize, tokenFields]
  | cons t ts ih =>
    obtain ⟨hlet, _⟩ := h t (List.mem_cons_self t ts)
    obtain ⟨d, hd⟩ := Option.isSome_iff_exists.mp hlet
    have hw : typeWidth (tokenDesc t).typeId = (tokenDesc t).size := by
      have hdesc : tokenDesc t = d := by simp [tokenDesc, hd]
      rw [hdesc]; exact width_eq_size hd
    have htail := ih (fun x hx => h x (List.mem_cons_of_mem t hx))
    calc tokenSize (t :: ts) = tokenCount t * (tokenDesc t).size + tokenSize ts := by
          simp [tokenSize]
      _ = (List.map typeWidth (List.replicate (tokenCount t) (tokenDesc t).typeId)).sum
            + ((tokenFields ts).map typeWidth).sum := by
          rw [htail, List.map_replicate, List.sum_replicate, smul_eq_mul, hw]
      _ = ((tokenFields (t :: ts)).map typeWidth).sum := by
          rw [tokenFields_cons, List.map_append, List.sum_append]

lemma tokenFields_length (ts : List LayoutToken) :
    (tokenFields ts).length = (ts.map tokenCount).sum := by
  induction ts with
  | nil => simp [tokenFields]
  | cons t ts ih =>
    rw [tokenFields_cons, List.length_append, List.length_replicate, ih]
    simp

/-! ### Claims C2, C4 and C9: the layout compiler -/

/-- Claim C2, amended: for every layout specifier consisting of
recognized type letters each optionally followed by a decimal digit
run, compilation succeeds, the returned record size equals the sum of
the byte widths of the returned fields, and the number of fields is the
sum over the letters of `max(count, 1)`: a bare letter counts 1, and an
explicit repeat count of 0 also yields 1 field (the field appended for
the letter itself is kept), not 0 as the frozen claim's "sum of the
declared repeat counts" demands. -/
theorem claim_C2 (ts : List LayoutToken) (h : ∀ t ∈ ts, tokenOK t) :
    ∃ fds rs, parseBinaryFmtSpec (flattenTokens ts) = .ok (fds, rs) ∧
      rs = (fds.map typeWidth).sum ∧
      fds.length = (ts.map tokenCount).sum := by
  obtain ⟨st', h1, h2, h3⟩ := parseLoop_tokens ts h initState
  have hinit : flushRepeat initState = initState := by simp [flushRepeat, initState]
  rw [hinit] at h2 h3
  refine ⟨tokenFields ts, tokenSize ts, ?_, ?_, ?_⟩
  · simp only [parseBinaryFmtSpec, h1, finalize_eq]
    rw [h2, h3]
    simp [initState]
  · exact tokenSize_eq_width_sum ts h
  · exact tokenFields_length ts

/-- Witness for claim C2 at the concrete specifier `"C2s"`. -/
theorem claim_C2_witness :
    (∀ t ∈ [LayoutToken.mk 'C' ['2'], LayoutToken.mk 's' []], tokenOK t) ∧
    (∃ fds rs,
      parseBinaryFmtSpec (flattenTokens [LayoutToken.mk 'C' ['2'], LayoutToken.mk 's' []])
        = .ok (fds, rs) ∧
      rs = (fds.map typeWidth).sum ∧
      fds.length = ([LayoutToken.mk 'C' ['2'], LayoutToken.mk 's' []].map tokenCount).sum) :=
  ⟨by decide, claim_C2 [LayoutToken.mk 'C' ['2'], LayoutToken.mk 's' []] (by decide)⟩

/-- Counterexample to claim C2 as frozen: the specifier `"C0"` (one
recognized letter followed by the digit run `"0"`) compiles to one
field, but the sum of the declared repeat counts — 0, since the letter
carries the explicit digit run `"0"` — is not the field count. -/
theorem claim_C2_counterexample :
    parseBinaryFmtSpec (flattenTokens [LayoutToken.mk 'C' ['0']]) = .ok ([intType.U8], 1) ∧
    claimDeclaredCount [LayoutToken.mk 'C' ['0']] = 0 ∧
    ([intType.U8] : List intType).length ≠ claimDeclaredCount [LayoutToken.mk 'C' ['0']] := by
  decide

/-- Counterexample to claim C4 as frozen: `compile("sL2c")` reports the
`L` fields as unsigned 32-bit (`U32`), not as the signed `Int32` fields
the claim's list `[Int16, Int32, Int32, Int8]` names (upper-case
letters are unsigned, as the claim's own parenthetical states). -/
theorem claim_C4_counterexample :
    parseBinaryFmtSpec "sL2c".toList
      = .ok ([intType.I16, intType.U32, intType.U32, intType.I8], 11) ∧
    ([intType.I16, intType.U32, intType.U32, intType.I8] : List intType)
      ≠ [intType.I16, intType.I32, intType.I32, intType.I8] := by decide

/-- Claim C4, amended: `compile("sL2c")` returns the field sequence
`[Int16, UInt32, UInt32, Int8]` — signed 16-bit for `s`, two unsigned
32-bit fields for `L2`, signed 8-bit for `c` — with record size
`2+4+4+1 = 11`. -/
theorem claim_C4 :
    parseBinaryFmtSpec "sL2c".toList
      = .ok ([intType.I16, intType.U32, intType.U32, intType.I8], 11) := by decide

/-- Claim C9: an explicit repeat digit `0` directly after a recognized
type letter changes nothing — the compilation of any specifier with the
digit `0` inserted after such a letter equals the compilation of the
specifier without it, so the field appended for the letter is kept and
a zero count never removes or zeroes out a field. -/
theorem claim_C9 (s t : List Char) (c : Char) (d : intDesc) (h : descCharMap c = some d) :
    parseBinaryFmtSpec (s ++ c :: '0' :: t) = parseBinaryFmtSpec (s ++ c :: t) := by
  unfold parseBinaryFmtSpec
  rw [parseLoop_append s (c :: '0' :: t) initState, parseLoop_append s (c :: t) initState]
  cases hs : parseLoop initState s with
  | error e => rfl
  | ok st0 =>
    have hstep : parseLoop st0 (c :: '0' :: t) = parseLoop st0 (c :: t) := by
      have hd0 : parseStep (⟨(flushRepeat st0).acc ++ [d.typeId],
            (flushRepeat st0).recSize + d.size, 0, some d⟩ : ParseState) '0'
          = .ok ⟨(flushRepeat st0).acc ++ [d.typeId], (flushRepeat st0).recSize + d.size,
              0 * 10 + ('0'.toNat - '0'.toNat), some d⟩ :=
        parseStep_digit _ d (by decide) rfl
      simp only [parseLoop, parseStep_letter st0 h, hd0]
      norm_num
    dsimp only
    rw [hstep]

/-- Witness for claim C9 at the concrete specifiers `"cC0s"` and `"cCs"`. -/
theorem claim_C9_witness :
    descCharMap 'C' = some ⟨intType.U8, 1⟩ ∧
    parseBinaryFmtSpec ("c".toList ++ 'C' :: '0' :: "s".toList)
      = parseBinaryFmtSpec ("c".toList ++ 'C' :: "s".toList) :=
  ⟨by decide, claim_C9 "c".toList "s".toList 'C' ⟨intType.U8, 1⟩ (by decide)⟩

/-! ### Lemmas about the template engine -/

lemma afterPct_decomp : ∀ {cs sp r : List Char}, afterPct cs = some (sp, r) → cs = sp ++ r := by
  intro cs
  induction cs with
  | nil => intro sp r h; exact Option.noConfusion h
  | cons c rest ih =>
    intro sp r h
    unfold afterPct at h
    by_cases hf : isFinalConv c = true
    · rw [if_pos hf] at h
      injection h with h2
      injection h2 with h3 h4
      subst h3 h4
      rfl
    · rw [if_neg hf] at h
      by_cases hp : c = '%'
      · rw [if_pos hp] at h
        exact Option.noConfusion h
      · rw [if_neg hp] at h
        cases ha : afterPct rest with
        | none => rw [ha] at h; exact Option.noConfusion h
        | some v =>
          obtain ⟨sp', r'⟩ := v
          rw [ha] at h
          injection h with h2
          injection h2 with h3 h4
          subst h3 h4
          simpa using congrArg (c :: ·) (ih ha)

lemma dMatchSpan_decomp {cs sp r : List Char} (h : dMatchSpan cs = some (sp, r)) :
    cs = sp ++ r := by
  cases cs with
  | nil => exact Option.noConfusion h
  | cons c rest =>
    simp only [dMatchSpan] at h
    by_cases hc : c = '%'
    · rw [if_pos hc] at h
      cases ha : afterPct rest with
      | none => rw [ha] at h; exact Option.noConfusion h
      | some v =>
        obtain ⟨sp', r'⟩ := v
        rw [ha] at h
        injection h with h2
        injection h2 with h3 h4
        subst h3 h4
        simpa using congrArg (c :: ·) (afterPct_decomp ha)
    · rw [if_neg hc] at h
      exact Option.noConfusion h

lemma tryMatch_hash {cs : List Char} {v : List Char × List Char × List Char × List Char}
    (h : tryMatch cs = some v) : '#' ∈ cs := by
  unfold tryMatch at h
  cases hd : dMatchSpan cs with
  | none => rw [hd] at h; exact Option.noConfusion h
  | some p =>
    obtain ⟨sp, r1⟩ := p
    rw [hd] at h
    dsimp only at h
    split at h
    · exact Option.noConfusion h
    · split at h
      · rename_i rest heq
        have hmem : '#' ∈ (r1.drop (r1.takeWhile (fun c => !(isDigit c))).length).drop
            ((r1.drop (r1.takeWhile (fun c => !(isDigit c))).length).takeWhile isDigit).length := by
          rw [heq]
          exact List.mem_cons_self _ _
        have hsub1 : (r1.drop (r1.takeWhile (fun c => !(isDigit c))).length).drop
            ((r1.drop (r1.takeWhile (fun c => !(isDigit c))).length).takeWhile isDigit).length
            <:+ r1 :=
          (List.drop_suffix _ _).trans (List.drop_suffix _ _)
        have hsub2 : r1 <:+ cs := by
          rw [dMatchSpan_decomp hd]
          exact List.suffix_append sp r1
        exact (hsub1.trans hsub2).subset hmem
      · exact Option.noConfusion h

lemma hasRepeatMatch_eq_false {cs : List Char} (h : '#' ∉ cs) : hasRepeatMatch cs = false := by
  induction cs with
  | nil => rfl
  | cons c rest ih =>
    have h1 : tryMatch (c :: rest) = none := by
      cases htm : tryMatch (c :: rest) with
      | none => rfl
      | some v => exact absurd (tryMatch_hash htm) h
    have h2 : '#' ∉ rest := fun hm => h (List.mem_cons_of_mem c hm)
    simp [hasRepeatMatch, h1, ih h2]

lemma processAux_no_match : ∀ (fuel : Nat) (prevc : Option Char) (cs : List Char),
    hasRepeatMatch cs = false → processAux fuel prevc cs = .ok cs := by
  intro fuel
  induction fuel with
  | zero => intro prevc cs _; rfl
  | succ f ih =>
    intro prevc cs hm
    cases cs with
    | nil => rfl
    | cons c rest =>
      have h1 : tryMatch (c :: rest) = none := by
        cases htm : tryMatch (c :: rest) with
        | none => rfl
        | some v => simp [hasRepeatMatch, htm] at hm
      have h2 : hasRepeatMatch rest = false := by
        simpa [hasRepeatMatch, h1] using hm
      simp only [processAux, h1]
      rw [ih (some c) rest h2]
      rfl

lemma processPrintFmt_no_match {s : List Char} (h : hasRepeatMatch s = false) :
    processPrintFmt s = .ok s :=
  processAux_no_match (s.length + 1) none s h

lemma dMatch_02x (rest : List Char) :
    dMatchSpan ('%' :: '0' :: '2' :: 'x' :: rest) = some (['%', '0', '2', 'x'], rest) := rfl

lemma countTail_chunks : ∀ (k fuel : Nat), k ≤ fuel →
    countTail fuel ((List.replicate k [' ', '%', '0', '2', 'x']).flatten) = k := by
  intro k
  induction k with
  | zero => intro fuel _; cases fuel <;> rfl
  | succ k ih =>
    intro fuel hk
    cases fuel with
    | zero => omega
    | succ f =>
      have hfl : (List.replicate (k + 1) ([' ', '%', '0', '2', 'x'] : List Char)).flatten
          = ' ' :: '%' :: '0' :: '2' :: 'x' ::
              (List.replicate k ([' ', '%', '0', '2', 'x'] : List Char)).flatten := by
        simp [List.replicate_succ]
      rw [hfl]
      have hstep : countTail (f + 1) (' ' :: '%' :: '0' :: '2' :: 'x' ::
            (List.replicate k ([' ', '%', '0', '2', 'x'] : List Char)).flatten)
          = 1 + countTail f ((List.replicate k ([' ', '%', '0', '2', 'x'] : List Char)).flatten) :=
        rfl
      rw [hstep, ih f (by omega)]
      omega

lemma flatten_replicate_length (k : Nat) (l : List Char) :
    ((List.replicate k l).flatten).length = k * l.length := by
  simp [List.length_flatten, List.map_replicate, List.sum_replicate, smul_eq_mul]

lemma count_default (n : Nat) (h : 1 ≤ n) :
    countPrintFmtSpec ("%02x".toList ++ (List.replicate (n - 1) " %02x".toList).flatten) = n := by
  have hrw : "%02x".toList ++ (List.replicate (n - 1) " %02x".toList).flatten
      = '%' :: '0' :: '2' :: 'x' ::
          (List.replicate (n - 1) ([' ', '%', '0', '2', 'x'] : List Char)).flatten := rfl
  rw [hrw]
  unfold countPrintFmtSpec
  rw [dMatch_02x]
  dsimp only
  rw [countTail_chunks (n - 1) _ (by simp [flatten_replicate_length]; omega)]
  omega

lemma flatten_replicate_sandwich (a b : List Char) : ∀ m : Nat,
    (List.replicate (m + 1) (a ++ b)).flatten = a ++ (List.replicate m (b ++ a)).flatten ++ b := by
  intro m
  induction m with
  | zero => simp
  | succ m ih =>
    calc (List.replicate (m + 2) (a ++ b)).flatten
        = (a ++ b) ++ (List.replicate (m + 1) (a ++ b)).flatten := by
          simp [List.replicate_succ]
      _ = (a ++ b) ++ (a ++ (List.replicate m (b ++ a)).flatten ++ b) := by rw [ih]
      _ = a ++ (List.replicate (m + 1) (b ++ a)).flatten ++ b := by
          simp [List.replicate_succ, List.append_assoc]

lemma repeatWithSep_pos (rep sep : List Char) (n : Nat) (h : 1 ≤ n) :
    repeatWithSep rep sep n = .ok (rep ++ (List.replicate (n - 1) (sep ++ rep)).flatten) := by
  obtain ⟨m, rfl⟩ : ∃ m, n = m + 1 := ⟨n - 1, by omega⟩
  simp only [repeatWithSep]
  rw [flatten_replicate_sandwich rep sep m]
  have hle : sep.length ≤ (rep ++ (List.replicate m (sep ++ rep)).flatten ++ sep).length := by
    simp
    omega
  rw [if_pos hle]
  have h1 : (rep ++ (List.replicate m (sep ++ rep)).flatten ++ sep).length - sep.length
      = (rep ++ (List.replicate m (sep ++ rep)).flatten).length := by
    simp
    omega
  simp only [Nat.add_sub_cancel]
  rw [h1, List.take_left]

lemma ne_pct_of_final {c : Char} (h : isFinalConv c = true) : c ≠ '%' := by
  intro hc
  subst hc
  exact absurd h (by decide)

lemma dMatchSpan_not_pct {c : Char} (h : ¬ c = '%') (l : List Char) :
    dMatchSpan (c :: l) = none := by
  simp [dMatchSpan, h]

lemma specLive_afterPct : ∀ {rest sp r' : List Char}, afterPct rest = some (sp, r') →
    ∃ lc, isFinalConv lc = true ∧
      ∀ q : Option Char, specLiveCount q rest = specLiveCount (some lc) r' := by
  intro rest
  induction rest with
  | nil => intro sp r' h; exact Option.noConfusion h
  | cons c rst ih =>
    intro sp r' h
    unfold afterPct at h
    by_cases hf : isFinalConv c = true
    · rw [if_pos hf] at h
      injection h with h2
      injection h2 with h3 h4
      subst h4
      refine ⟨c, hf, fun q => ?_⟩
      simp [specLiveCount, dMatchSpan_not_pct (ne_pct_of_final hf)]
    · rw [if_neg hf] at h
      by_cases hp : c = '%'
      · rw [if_pos hp] at h
        exact Option.noConfusion h
      · rw [if_neg hp] at h
        cases ha : afterPct rst with
        | none => rw [ha] at h; exact Option.noConfusion h
        | some v =>
          obtain ⟨sp1, r1⟩ := v
          rw [ha] at h
          injection h with h2
          injection h2 with h3 h4
          subst h4
          obtain ⟨lc, hlc, hq⟩ := ih ha
          refine ⟨lc, hlc, fun q => ?_⟩
          simp [specLiveCount, dMatchSpan_not_pct hp, hq (some c)]

lemma specLive_dMatch {cs sp r' : List Char} (h : dMatchSpan cs = some (sp, r')) :
    ∃ lc, isFinalConv lc = true ∧ ∀ q : Option Char,
      specLiveCount q cs = (if q ≠ some '%' then 1 else 0) + specLiveCount (some lc) r' := by
  cases cs with
  | nil => exact Option.noConfusion h
  | cons c rest =>
    have hsome : (dMatchSpan (c :: rest)).isSome = true := by rw [h]; rfl
    simp only [dMatchSpan] at h
    by_cases hc : c = '%'
    · rw [if_pos hc] at h
      cases ha : afterPct rest with
      | none => rw [ha] at h; exact Option.noConfusion h
      | some v =>
        obtain ⟨sp1, r1⟩ := v
        rw [ha] at h
        injection h with h2
        injection h2 with h3 h4
        subst h4
        obtain ⟨lc, hlc, hq⟩ := specLive_afterPct ha
        refine ⟨lc, hlc, fun q => ?_⟩
        subst hc
        simp only [specLiveCount, hsome, Bool.true_and, hq (some '%')]
        by_cases hqq : q = some '%'
        · simp [hqq]
        · simp [hqq]
    · rw [if_neg hc] at h
      exact Option.noConfusion h

lemma countTail_le_specLive : ∀ (fuel : Nat) (cs : List Char) (q : Option Char),
    countTail fuel cs ≤ specLiveCount q cs := by
  intro fuel
  induction fuel with
  | zero => intro cs q; simp [countTail]
  | succ f ih =>
    intro cs q
    cases cs with
    | nil => simp [countTail]
    | cons c rest =>
      have htail : specLiveCount (some c) rest ≤ specLiveCount q (c :: rest) := by
        simp only [specLiveCount]
        exact Nat.le_add_left _ _
      by_cases hc : c = '%'
      · have h1 : countTail (f + 1) (c :: rest) = countTail f rest := by
          simp [countTail, hc]
        rw [h1]
        exact (ih rest (some c)).trans htail
      · cases hd : dMatchSpan rest with
        | none =>
          have h1 : countTail (f + 1) (c :: rest) = countTail f rest := by
            simp [countTail, hc, hd]
          rw [h1]
          exact (ih rest (some c)).trans htail
        | some v =>
          obtain ⟨sp, r'⟩ := v
          have h1 : countTail (f + 1) (c :: rest) = 1 + countTail f r' := by
            simp [countTail, hc, hd]
          rw [h1]
          obtain ⟨lc, hlc, hq⟩ := specLive_dMatch hd
          have h4 : specLiveCount (some c) rest = 1 + specLiveCount (some lc) r' := by
            rw [hq (some c)]
            simp [hc]
          have h5 := ih r' (some lc)
          omega

lemma count_le_specLive (s : List Char) : countPrintFmtSpec s ≤ specLiveCount none s := by
  unfold countPrintFmtSpec
  cases hd : dMatchSpan s with
  | none => exact countTail_le_specLive s.length s none
  | some v =>
    obtain ⟨sp, r⟩ := v
    obtain ⟨lc, hlc, hq⟩ := specLive_dMatch hd
    have h2 : specLiveCount none s = 1 + specLiveCount (some lc) r := by
      rw [hq none]
      simp
    dsimp only
    rw [h2]
    have := countTail_le_specLive s.length r (some lc)
    omega

/-! ### Claims C3 and C8: counting and expansion robustness -/

/-- Claim C3, amended: the directive count computed by the program
never exceeds the number of conversion directives in the expanded
string that are not immediately preceded by a literal `%`, and a
template with no repeat-shorthand is returned unchanged; but the two
counts are not always equal — the counting regex consumes the character
before each directive, so a live directive starting exactly where the
previous counted match ended is missed: `"%d%d"` has two live
directives and counts as 1. -/
theorem claim_C3 :
    (∀ s : List Char, hasRepeatMatch s = false → processPrintFmt s = .ok s) ∧
    (∀ s : List Char, countPrintFmtSpec s ≤ specLiveCount none s) ∧
    countPrintFmtSpec "%d%d".toList = 1 ∧
    specLiveCount none "%d%d".toList = 2 :=
  ⟨fun _ h => processPrintFmt_no_match h, count_le_specLive, by decide, by decide⟩

/-- Counterexample to claim C3 as frozen: the template `"%d%d"`
contains no repeat-shorthand and is returned unchanged, and both of its
directives are live (the second is preceded by `d`, not by `%`), yet
the computed count is 1, not 2: the non-overlapping scan cannot count a
directive that starts at the end of the previous match. -/
theorem claim_C3_counterexample :
    processPrintFmt "%d%d".toList = .ok "%d%d".toList ∧
    specLiveCount none "%d%d".toList = 2 ∧
    countPrintFmtSpec "%d%d".toList = 1 ∧
    countPrintFmtSpec "%d%d".toList ≠ specLiveCount none "%d%d".toList := by decide

/-- Claim C8, amended: `expand` returns the template unexpanded
whenever no repeat-shorthand pattern matches anywhere in it, and an
occurrence immediately preceded by an escaped literal `%` is copied
verbatim; but `expand` is not total on matched occurrences — a matched
repeat count of 0 (e.g. `"%d0#"`) panics in the slice
`printFmt[:len(printFmt)-len(sep)]` of `repeatWithSep`. -/
theorem claim_C8 :
    (∀ s : List Char, hasRepeatMatch s = false → processPrintFmt s = .ok s) ∧
    processPrintFmt "%%d3#".toList = .ok "%%d3#".toList ∧
    processPrintFmt "%d0#".toList = .error .sliceBounds :=
  ⟨fun _ h => processPrintFmt_no_match h, by decide, by decide⟩

/-- Counterexample to claim C8 as frozen ("`expand` never fails"): on
the template `"%d0#"` the repeat pattern matches with digit run `"0"`,
and `repeatWithSep "%d" " " 0` slices to the negative index `0 - 1`,
which panics at runtime; the recovered panic exits the program with a
non-zero status. -/
theorem claim_C8_counterexample :
    processPrintFmt "%d0#".toList = .error GoPanic.sliceBounds := by decide

/-! ### Claims C7 and C10: the default-template path of `main` -/

lemma configure_default_eq (bf : List Char) (fd : List intType) (rs : Nat)
    (h : parseBinaryFmtSpec bf = .ok (fd, rs)) :
    configure bf [] =
      (generatePrintFmt fd.length [' ']).bind fun pf0 =>
        (processPrintFmt pf0).bind fun pf =>
          if countPrintFmtSpec pf = fd.length then .ok (fd, rs, pf ++ ['\n'])
          else .error (.fieldCountMismatch fd.length (countPrintFmtSpec pf)) := by
  unfold configure
  rw [h]
  rfl

lemma hash_not_mem_default (k : Nat) :
    '#' ∉ ("%02x".toList ++ (List.replicate k " %02x".toList).flatten) := by
  intro hmem
  rcases List.mem_append.mp hmem with h1 | h2
  · exact absurd h1 (by decide)
  · obtain ⟨l, hl, hcl⟩ := List.mem_flatten.mp h2
    rw [List.eq_of_mem_replicate hl] at hcl
    exact absurd hcl (by decide)

/-- Claim C7, amended: for every layout specifier that compiles, the
default-template path never triggers the `FieldCountMismatch` fatal
error; when the layout has at least one field, the synthesized default
template (one `"%02x"` directive per field, space-separated) exists and
contains exactly as many live conversion directives as there are
fields.  For a zero-field layout the default-template generation itself
panics on the trailing-separator slice, so no template is synthesized —
but even then the mismatch error cannot be reached. -/
theorem claim_C7 (bf : List Char) (fd : List intType) (rs : Nat)
    (h : parseBinaryFmtSpec bf = .ok (fd, rs)) :
    (∀ n m, configure bf [] ≠ .error (.fieldCountMismatch n m)) ∧
    (1 ≤ fd.length →
      ∃ tmpl, generatePrintFmt fd.length [' '] = .ok tmpl ∧
        countPrintFmtSpec tmpl = fd.length ∧
        configure bf [] = .ok (fd, rs, tmpl ++ ['\n'])) := by
  by_cases hlen : 1 ≤ fd.length
  · have hsep : ([' '] : List Char) ++ "%02x".toList = " %02x".toList := rfl
    have hgen : generatePrintFmt fd.length [' ']
        = .ok ("%02x".toList ++ (List.replicate (fd.length - 1) " %02x".toList).flatten) := by
      unfold generatePrintFmt
      rw [repeatWithSep_pos _ _ _ hlen, hsep]
    have hnomatch : hasRepeatMatch
        ("%02x".toList ++ (List.replicate (fd.length - 1) " %02x".toList).flatten) = false :=
      hasRepeatMatch_eq_false (hash_not_mem_default (fd.length - 1))
    have hproc := processPrintFmt_no_match hnomatch
    have hcount := count_default fd.length hlen
    have hconf : configure bf []
        = .ok (fd, rs, ("%02x".toList ++ (List.replicate (fd.length - 1) " %02x".toList).flatten)
            ++ ['\n']) := by
      rw [configure_default_eq bf fd rs h, hgen]
      simp only [Except.bind]
      rw [hproc]
      simp only [Except.bind]
      rw [if_pos hcount]
    constructor
    · intro n m hcontra
      rw [hconf] at hcontra
      exact Except.noConfusion hcontra
    · intro _
      exact ⟨_, hgen, hcount, hconf⟩
  · have hz : fd.length = 0 := by omega
    have hconf : configure bf [] = .error .sliceBounds := by
      rw [configure_default_eq bf fd rs h, hz]
      rfl
    constructor
    · intro n m hcontra
      rw [hconf] at hcontra
      injection hcontra with h2
      exact GoPanic.noConfusion h2
    · intro hcontra
      omega

/-- Witness for claim C7 at the concrete layout `"C2"`. -/
theorem claim_C7_witness :
    parseBinaryFmtSpec "C2".toList = .ok ([intType.U8, intType.U8], 2) ∧
    ((∀ n m, configure "C2".toList [] ≠ .error (.fieldCountMismatch n m)) ∧
     (1 ≤ ([intType.U8, intType.U8] : List intType).length →
       ∃ tmpl, generatePrintFmt ([intType.U8, intType.U8] : List intType).length [' ']
           = .ok tmpl ∧
         countPrintFmtSpec tmpl = ([intType.U8, intType.U8] : List intType).length ∧
         configure "C2".toList [] = .ok ([intType.U8, intType.U8], 2, tmpl ++ ['\n']))) :=
  ⟨by decide, claim_C7 "C2".toList [intType.U8, intType.U8] 2 (by decide)⟩

/-- Counterexample to claim C7 as frozen: the empty layout specifier
compiles to zero fields, and then no default template containing
"exactly N" directives is synthesized at all — the generation panics on
the slice of the empty repetition. -/
theorem claim_C7_counterexample :
    parseBinaryFmtSpec "".toList = .ok ([], 0) ∧
    generatePrintFmt 0 [' '] = .error GoPanic.sliceBounds ∧
    configure "".toList [] = .error GoPanic.sliceBounds := by decide

/-! ### Claim C6: repeat-shorthand expansion of a single occurrence -/

lemma processAux_nil (fuel : Nat) (prevc : Option Char) : processAux fuel prevc [] = .ok [] := by
  cases fuel <;> rfl

lemma exceptOkBind {α β : Type} (a : α) (f : α → Except GoPanic β) :
    (Except.ok a >>= f) = f a := rfl

lemma afterPct_flags : ∀ (flags : List Char) (fin : Char) (rest : List Char),
    (∀ c ∈ flags, isFinalConv c = false ∧ c ≠ '%') → isFinalConv fin = true →
    afterPct (flags ++ fin :: rest) = some (flags ++ [fin], rest) := by
  intro flags
  induction flags with
  | nil =>
    intro fin rest _ hfin
    simp [afterPct, hfin]
  | cons c fs ih =>
    intro fin rest hall hfin
    obtain ⟨hc1, hc2⟩ := hall c (List.mem_cons_self c fs)
    have hih := ih fin rest (fun z hz => hall z (List.mem_cons_of_mem c hz)) hfin
    show afterPct (c :: (fs ++ fin :: rest)) = some ((c :: fs) ++ [fin], rest)
    simp only [afterPct, hih]
    rw [if_neg (by simp [hc1]), if_neg hc2]
    rfl

lemma dMatchSpan_conv (flags : List Char) (fin : Char) (rest : List Char)
    (hflags : ∀ c ∈ flags, isFinalConv c = false ∧ c ≠ '%') (hfin : isFinalConv fin = true) :
    dMatchSpan ('%' :: (flags ++ fin :: rest)) = some ('%' :: (flags ++ [fin]), rest) := by
  simp [dMatchSpan, afterPct_flags flags fin rest hflags hfin]

lemma takeWhile_append_stop {p : Char → Bool} (xs : List Char) (h : ∀ x ∈ xs, p x = true)
    (y : Char) (hy : p y = false) (tail : List Char) :
    (xs ++ y :: tail).takeWhile p = xs := by
  induction xs with
  | nil => simp [List.takeWhile_cons, hy]
  | cons x xs ih =>
    have hx : p x = true := h x (List.mem_cons_self x xs)
    simp [List.takeWhile_cons, hx, ih (fun z hz => h z (List.mem_cons_of_mem x hz))]

lemma tryMatch_single (flags : List Char) (fin : Char) (sep ds : List Char)
    (hflags : ∀ c ∈ flags, isFinalConv c = false ∧ c ≠ '%')
    (hfin : isFinalConv fin = true)
    (hsep : ∀ c ∈ sep, isDigit c = false)
    (hne : ds ≠ []) (hds : ∀ c ∈ ds, isDigit c = true) :
    tryMatch ('%' :: (flags ++ fin :: (sep ++ (ds ++ ['#']))))
      = some ('%' :: (flags ++ [fin]), sep, ds, []) := by
  obtain ⟨d, ds', rfl⟩ : ∃ d ds', ds = d :: ds' := by
    cases ds with
    | nil => exact absurd rfl hne
    | cons d ds' => exact ⟨d, ds', rfl⟩
  unfold tryMatch
  rw [dMatchSpan_conv flags fin _ hflags hfin]
  dsimp only
  simp only [List.cons_append]
  have h1 : (sep ++ d :: (ds' ++ ['#'])).takeWhile (fun c => !(isDigit c)) = sep :=
    takeWhile_append_stop sep (fun z hz => by simp [hsep z hz]) d
      (by simp [hds d (List.mem_cons_self d ds')]) _
  have h2 : (sep ++ d :: (ds' ++ ['#'])).drop sep.length = d :: (ds' ++ ['#']) :=
    List.drop_left sep _
  have h3 : (d :: (ds' ++ ['#'])).takeWhile isDigit = d :: ds' :=
    takeWhile_append_stop (d :: ds') hds '#' (by decide) []
  have h4 : (d :: (ds' ++ ['#'])).drop (d :: ds').length = ['#'] :=
    List.drop_left (d :: ds') ['#']
  rw [h1, h2, h3, h4]
  simp

lemma processPrintFmt_single (flags : List Char) (fin : Char) (sep ds : List Char)
    (hflags : ∀ c ∈ flags, isFinalConv c = false ∧ c ≠ '%')
    (hfin : isFinalConv fin = true)
    (hsep : ∀ c ∈ sep, isDigit c = false)
    (hne : ds ≠ []) (hds : ∀ c ∈ ds, isDigit c = true)
    (hpos : 1 ≤ digitsVal ds) :
    processPrintFmt ('%' :: (flags ++ fin :: (sep ++ (ds ++ ['#']))))
      = .ok (('%' :: (flags ++ [fin])) ++
          (List.replicate (digitsVal ds - 1)
            ((if sep = [] then [' '] else sep) ++ ('%' :: (flags ++ [fin])))).flatten) := by
  unfold processPrintFmt
  simp only [processAux, tryMatch_single flags fin sep ds hflags hfin hsep hne hds]
  rw [repeatWithSep_pos _ _ _ hpos]
  simp only [processAux_nil, exceptOkBind, List.append_nil]
  simp

/-- Claim C6: a repeat-shorthand occurrence
`<conversion><separator>?<digits>#` — conversion directive, optional
non-digit separator, positive digit run, terminating `#` — expands to
`<digits>` copies of the conversion joined by the separator, with the
separator defaulting to a single space when empty; in particular
`expand("%02x4#") = "%02x %02x %02x %02x"` and
`expand("%02x,3#") = "%02x,%02x,%02x"`. -/
theorem claim_C6 :
    (∀ (flags : List Char) (fin : Char) (sep ds : List Char),
      (∀ c ∈ flags, isFinalConv c = false ∧ c ≠ '%') →
      isFinalConv fin = true →
      (∀ c ∈ sep, isDigit c = false) →
      ds ≠ [] → (∀ c ∈ ds, isDigit c = true) → 1 ≤ digitsVal ds →
      processPrintFmt ('%' :: (flags ++ fin :: (sep ++ (ds ++ ['#']))))
        = .ok (('%' :: (flags ++ [fin])) ++
            (List.replicate (digitsVal ds - 1)
              ((if sep = [] then [' '] else sep) ++ ('%' :: (flags ++ [fin])))).flatten)) ∧
    processPrintFmt "%02x4#".toList = .ok "%02x %02x %02x %02x".toList ∧
    processPrintFmt "%02x,3#".toList = .ok "%02x,%02x,%02x".toList :=
  ⟨fun flags fin sep ds h1 h2 h3 h4 h5 h6 =>
      processPrintFmt_single flags fin sep ds h1 h2 h3 h4 h5 h6,
   by decide, by decide⟩

/-! ### Claims C1 and C5: the record loop on end-of-stream and I/O failure -/

lemma typeWidth_pos (t : intType) : 1 ≤ typeWidth t := by
  cases t <;> simp [typeWidth]

lemma readField_io (t : intType) {s : ByteStream} {m : String} (h : s.term = .ioFail m) :
    (∃ v, readField t s = (.ok v, ⟨s.bytes.drop (typeWidth t), s.term⟩)
        ∧ typeWidth t ≤ s.bytes.length)
    ∨ readField t s = (.error (.readFail m), ⟨[], s.term⟩) := by
  unfold readField
  by_cases hw : typeWidth t ≤ s.bytes.length
  · exact Or.inl ⟨_, by rw [if_pos hw], hw⟩
  · right
    rw [if_neg hw, h]

lemma readData_io (fds : List intType) : ∀ (s : ByteStream) (m : String),
    s.term = .ioFail m →
    (∃ vs s', readData fds s = (fds.length, vs, none, s') ∧ s'.term = s.term ∧
      s'.bytes.length + (fds.map typeWidth).sum = s.bytes.length)
    ∨ (∃ n vs s', readData fds s = (n, vs, some (.readFail m), s')) := by
  induction fds with
  | nil =>
    intro s m _
    exact Or.inl ⟨[], s, rfl, rfl, by simp⟩
  | cons t rest ih =>
    intro s m h
    rcases readField_io t h with ⟨v, hf, hw⟩ | hf
    · rcases ih ⟨s.bytes.drop (typeWidth t), s.term⟩ m h with ⟨vs, s', hr, ht, hl⟩
        | ⟨n, vs, s', hr⟩
      · left
        refine ⟨v :: vs, s', by simp [readData, hf, hr], ht, ?_⟩
        simp only [List.length_drop] at hl
        have hsum : ((t :: rest).map typeWidth).sum
            = typeWidth t + (rest.map typeWidth).sum := by simp
        omega
      · exact Or.inr ⟨n + 1, v :: vs, s', by simp only [readData, hf, hr]⟩
    · exact Or.inr ⟨0, [], ⟨[], s.term⟩, by simp only [readData, hf]⟩

lemma runLoop_io (fds : List intType) (pf : List Char) (m : String) (hne : fds ≠ []) :
    ∀ (fuel : Nat) (s : ByteStream), s.term = .ioFail m → s.bytes.length < fuel →
    ∃ lines n vs, runLoop fuel fds pf s = (lines, n, vs, some (.readFail m)) := by
  intro fuel
  induction fuel with
  | zero => intro s _ hlt; omega
  | succ f ih =>
    intro s h hlt
    rcases readData_io fds s m h with ⟨vs, s', hr, ht, hl⟩ | ⟨n, vs, s', hr⟩
    · have hwpos : 1 ≤ (fds.map typeWidth).sum := by
        cases fds with
        | nil => exact absurd rfl hne
        | cons t rest =>
          have := typeWidth_pos t
          simp
          omega
      obtain ⟨lines, n, vs', hrec⟩ := ih s' (ht.trans h) (by omega)
      exact ⟨goSprintf pf vs :: lines, n, vs', by simp only [runLoop, hr, hrec]⟩
    · exact ⟨[], n, vs, by simp only [runLoop, hr]⟩

/-- Claim C5, amended: on an I/O failure other than end-of-stream the
reader loop aborts — the loop's final error is always the underlying
failure, never one of the end-of-stream conditions — and `main` reports
it with the `"While reading data: "` context prefix; but the trailing
partial-record print is not suppressed: whenever the failing record
attempt had already decoded `n ≥ 1` fields, the `n != 0` check in
`main` prints the partial record before the report, so the partial-
record path is not exclusive to clean end-of-stream. -/
theorem claim_C5 (fds : List intType) (pf : List Char) (s : ByteStream) (m : String)
    (fuel : Nat) (h1 : s.term = .ioFail m) (h2 : fds ≠ []) (h3 : s.bytes.length < fuel) :
    ∃ lines n vs, runLoop fuel fds pf s = (lines, n, vs, some (.readFail m)) ∧
      runBprint fuel fds pf s
        = (lines ++ (if n = 0 then [] else [goSprintf pf vs]),
           some (("While reading data: " ++ m ++ "\n").toList)) := by
  obtain ⟨lines, n, vs, hr⟩ := runLoop_io fds pf m h2 fuel s h1 h3
  refine ⟨lines, n, vs, hr, ?_⟩
  unfold runBprint
  rw [hr]
  rfl

/-- Witness for claim C5: layout `C2`, one available byte, then a read
failure. -/
theorem claim_C5_witness :
    (ByteStream.mk [1] (.ioFail "read failed")).term = .ioFail "read failed" ∧
    ([intType.U8, intType.U8] : List intType) ≠ [] ∧
    (ByteStream.mk [1] (.ioFail "read failed")).bytes.length < 2 ∧
    ∃ lines n vs,
      runLoop 2 [intType.U8, intType.U8] "%02x %02x\n".toList ⟨[1], .ioFail "read failed"⟩
        = (lines, n, vs, some (.readFail "read failed")) ∧
      runBprint 2 [intType.U8, intType.U8] "%02x %02x\n".toList ⟨[1], .ioFail "read failed"⟩
        = (lines ++ (if n = 0 then [] else [goSprintf "%02x %02x\n".toList vs]),
           some (("While reading data: " ++ "read failed" ++ "\n").toList)) :=
  ⟨rfl, by decide, by decide,
   claim_C5 [intType.U8, intType.U8] "%02x %02x\n".toList ⟨[1], .ioFail "read failed"⟩
     "read failed" 2 rfl (by decide) (by decide)⟩

/-- Counterexample to claim C5 as frozen: with layout `C2` and a stream
that yields one byte and then a non-EOF read failure, the failing
attempt has decoded 1 field, so `main` prints the trailing partial
record `"01 %!x(MISSING)"` before reporting the failure — the claim
says no partial record is ever printed on an I/O failure. -/
theorem claim_C5_counterexample :
    runBprint 2 [intType.U8, intType.U8] "%02x %02x\n".toList ⟨[1], .ioFail "read failed"⟩
      = (["01 %!x(MISSING)\n".toList], some "While reading data: read failed\n".toList) ∧
    (["01 %!x(MISSING)\n".toList] : List (List Char)) ≠ [] := by decide

/-- Claim C1, amended: with layout `"C2"` and the 5-byte stream
`[01 02 03 04 05]`, the program prints the two full records and then
the trailing partial record, but the partial record is rendered through
the unchanged two-directive template, producing `"05 %!x(MISSING)"`
rather than just `"05"`, and no informational condition is reported:
the stream ended at a field boundary, so the final read error is
`io.EOF`, and the distinguished message
`"EOF: final data not enough for the last field"` is printed only when
the stream ends inside a field (`io.ErrUnexpectedEOF`), as the layout
`"CS"` with the same five bytes shows.  There is no fatal exit in
either case. -/
theorem claim_C1 :
    configure "C2".toList [] = .ok ([intType.U8, intType.U8], 2, "%02x %02x\n".toList) ∧
    runBprint 6 [intType.U8, intType.U8] "%02x %02x\n".toList ⟨[1, 2, 3, 4, 5], .eof⟩
      = (["01 02\n".toList, "03 04\n".toList, "05 %!x(MISSING)\n".toList], none) ∧
    configure "CS".toList [] = .ok ([intType.U8, intType.U16], 3, "%02x %02x\n".toList) ∧
    runBprint 3 [intType.U8, intType.U16] "%02x %02x\n".toList ⟨[1, 2, 3, 4, 5], .eof⟩
      = (["01 302\n".toList, "04 %!x(MISSING)\n".toList],
         some "EOF: final data not enough for the last field\n".toList) := by decide

/-- Counterexample to claim C1 as frozen: for layout `"C2"` and the
5-byte stream the run prints `"05 %!x(MISSING)"` for the partial record
— not only `"05"`, because `fmt.Printf` walks every directive and emits
a MISSING marker for the absent argument — and the final diagnostic is
`none`: the stream ended at a field boundary, so `binary.Read` returned
plain `io.EOF` and the distinguished insufficient-trailing-data message
is never printed for this input. -/
theorem claim_C1_counterexample :
    runBprint 6 [intType.U8, intType.U8] "%02x %02x\n".toList ⟨[1, 2, 3, 4, 5], .eof⟩
      = (["01 02\n".toList, "03 04\n".toList, "05 %!x(MISSING)\n".toList], none) ∧
    (runBprint 6 [intType.U8, intType.U8] "%02x %02x\n".toList ⟨[1, 2, 3, 4, 5], .eof⟩).2
      = none ∧
    "05 %!x(MISSING)\n".toList ≠ "05\n".toList := by decide

/-- Claim C10: a layout specifier that compiles to zero fields (here
the empty string) with no explicit template makes `generatePrintFmt`
slice one character off an empty string — `repeatWithSep` builds the
empty repetition and slices it to length `0 - len(" ")` — which panics;
the recovered panic terminates the program with a non-zero exit status
before any output, so generating the default template requires at least
one field. -/
theorem claim_C10 :
    parseBinaryFmtSpec "".toList = .ok ([], 0) ∧
    generatePrintFmt 0 [' '] = .error GoPanic.sliceBounds ∧
    configure "".toList [] = .error GoPanic.sliceBounds ∧
    (∀ out, configure "".toList [] ≠ .ok out) := by
  refine ⟨by decide, by decide, by decide, fun out h => ?_⟩
  have : (Except.error GoPanic.sliceBounds : Except GoPanic (List intType × Nat × List Char))
      = .ok out := by
    rw [← h]
    decide
  exact Except.noConfusion this

end Bprint
